import Mathlib

/-!
Shallow embedding of the `logfile` package (`logfile.go`): a buffered,
size-rotating log-file sink driven by a single controller goroutine.
File contents are lists of bytes, the file system is a map from path
names to optional contents, and the fallible OS calls of a single
controller step are driven by explicit success oracles.
-/

namespace Logfile

/-- A byte. -/
abbrev Byte := Nat

/-- The file system: each path is either absent or holds some contents. -/
def FS : Type := String → Option (List Byte)

/-- Creating or overwriting a file. -/
def FS.set (fs : FS) (p : String) (c : List Byte) : FS :=
  fun q => if q = p then some c else fs q

/-- `os.Remove`. -/
def FS.remove (fs : FS) (p : String) : FS :=
  fun q => if q = p then none else fs q

/-- `os.Rename src dst` (in this development only invoked when `src` exists). -/
def FS.rename (fs : FS) (src dst : String) : FS :=
  fun q => if q = dst then fs src else if q = src then none else fs q

/-- `FileNameVersion` (logfile.go:493): version 0 is the base name,
any other version appends `.v`. -/
def FileNameVersion (fileName : String) (v : Int) : String :=
  if v = 0 then fileName else fileName ++ "." ++ toString v

/-! ### Injectivity of the decimal representation

`FileNameVersion` builds names with `toString`, i.e. `Nat.repr`, which is
`(Nat.toDigits 10 n).asString`.  To get distinctness of versioned names we
prove that the decimal digit string determines the number. -/

/-- Decimal value of a digit string (left fold), inverse to `Nat.toDigits 10`. -/
def digitsVal (l : List Char) : Nat :=
  l.foldl (fun a c => a * 10 + (c.toNat - 48)) 0

theorem toDigitsCore_accum (f : Nat) : ∀ (n : Nat) (ds : List Char),
    Nat.toDigitsCore 10 f n ds = Nat.toDigitsCore 10 f n [] ++ ds := by
  induction f with
  | zero => intro n ds; simp [Nat.toDigitsCore]
  | succ f ih =>
    intro n ds
    simp only [Nat.toDigitsCore]
    by_cases h : n / 10 = 0
    · simp [h]
    · rw [if_neg h, if_neg h, ih (n / 10) (Nat.digitChar (n % 10) :: ds),
        ih (n / 10) [Nat.digitChar (n % 10)], List.append_assoc]
      rfl

theorem toDigitsCore_fuel : ∀ (n f1 f2 : Nat) (ds : List Char), n < f1 → n < f2 →
    Nat.toDigitsCore 10 f1 n ds = Nat.toDigitsCore 10 f2 n ds := by
  intro n
  induction n using Nat.strong_induction_on with
  | _ n ih =>
    intro f1 f2 ds h1 h2
    obtain ⟨a, rfl⟩ : ∃ a, f1 = a + 1 := ⟨f1 - 1, by omega⟩
    obtain ⟨b, rfl⟩ : ∃ b, f2 = b + 1 := ⟨f2 - 1, by omega⟩
    simp only [Nat.toDigitsCore]
    by_cases h : n / 10 = 0
    · rw [if_pos h, if_pos h]
    · rw [if_neg h, if_neg h]
      have hn : n / 10 < n := Nat.div_lt_self (by omega) (by omega)
      exact ih (n / 10) hn a b _ (by omega) (by omega)

theorem toDigits_small (n : Nat) (h : n < 10) :
    Nat.toDigits 10 n = [Nat.digitChar n] := by
  unfold Nat.toDigits
  simp only [Nat.toDigitsCore]
  rw [if_pos (by omega), Nat.mod_eq_of_lt h]

theorem toDigits_step (n : Nat) (h : 10 ≤ n) :
    Nat.toDigits 10 n = Nat.toDigits 10 (n / 10) ++ [Nat.digitChar (n % 10)] := by
  unfold Nat.toDigits
  simp only [Nat.toDigitsCore]
  rw [if_neg (by omega),
    toDigitsCore_fuel (n / 10) n (n / 10 + 1) _ (by omega) (by omega),
    toDigitsCore_accum]
  rfl

theorem digitChar_val (m : Nat) (h : m < 10) : (Nat.digitChar m).toNat - 48 = m := by
  interval_cases m <;> decide

theorem digitsVal_toDigits : ∀ n : Nat, digitsVal (Nat.toDigits 10 n) = n := by
  intro n
  induction n using Nat.strong_induction_on with
  | _ n ih =>
    by_cases h : n < 10
    · rw [toDigits_small n h]
      simp [digitsVal, digitChar_val n h]
    · rw [toDigits_step n (by omega)]
      unfold digitsVal
      rw [List.foldl_append]
      have hrec := ih (n / 10) (Nat.div_lt_self (by omega) (by omega))
      unfold digitsVal at hrec
      simp only [List.foldl]
      rw [hrec, digitChar_val _ (Nat.mod_lt n (by omega))]
      omega

theorem natRepr_injective (m n : Nat) (h : Nat.repr m = Nat.repr n) : m = n := by
  have hd : Nat.toDigits 10 m = Nat.toDigits 10 n := by
    have h2 := congrArg String.data h
    simpa [Nat.repr, List.asString] using h2
  calc m = digitsVal (Nat.toDigits 10 m) := (digitsVal_toDigits m).symm
  _ = digitsVal (Nat.toDigits 10 n) := by rw [hd]
  _ = n := digitsVal_toDigits n

theorem toString_intOfNat (n : Nat) : toString (n : Int) = Nat.repr n := rfl

/-! ### The sink state and the controller operations (logfile.go:328-531) -/

/-- What reaches the secondary stream (stderr): payloads mirrored by
`writeLog`, and internal error messages from `PrintError`. -/
inductive StderrEvent where
  | payload (p : List Byte)
  | errorMsg (msg : String)
deriving DecidableEq

/-- The `LogFile` struct: configuration plus the controller-owned runtime
state.  The Go bit-mask `Flags` is split into four booleans; the handle
`file *os.File` becomes the boolean `fileOpen`; the `bufio.Writer` becomes
the buffered-but-unflushed bytes (`none` meaning the Go `buf` field is nil);
`RotateFileFunc` becomes an optional file-system transformer. -/
structure LogFile where
  fileOnly : Bool
  overWriteOnStart : Bool
  rotateOnStart : Bool
  noErrors : Bool
  fileName : String
  maxSize : Int
  oldVersions : Int
  flushSeconds : Int
  rotateFunc : Option (FS → FS)
  fileOpen : Bool
  size : Int
  buf : Option (List Byte)

/-- The whole state one controller step acts on. -/
structure World where
  lp : LogFile
  fs : FS
  stderr : List StderrEvent

/-- Success oracles for the fallible OS calls of one controller step. -/
structure Oracles where
  openOk : Bool
  bufOk : Bool
  stderrOk : Bool

/-- `PrintError` (logfile.go:483): internal errors go to stderr unless the
`NoErrors` flag is set. -/
def printError (lp : LogFile) (stderr : List StderrEvent) (msg : String) :
    List StderrEvent :=
  if lp.noErrors then stderr else stderr ++ [.errorMsg msg]

/-- `flushLog` (logfile.go:442): no-op when the handle is closed; otherwise
the buffered bytes are appended to the file the handle points at and the
buffer empties.  When the path has vanished the bytes go to the orphaned
inode, i.e. are lost as far as the path map is concerned, hence the `map`. -/
def flushLog (w : World) : World :=
  if !w.lp.fileOpen then w
  else
    let b := w.lp.buf.getD []
    { w with
      fs := fun q => if q = w.lp.fileName then (w.fs w.lp.fileName).map (· ++ b) else w.fs q,
      lp := { w.lp with buf := w.lp.buf.map (fun _ => []) } }

/-- `closeLog` (logfile.go:467): flush, then close (no-op when already closed). -/
def closeLog (w : World) : World :=
  if !w.lp.fileOpen then w
  else
    let w := flushLog w
    { w with lp := { w.lp with fileOpen := false } }

/-- `openLogFile` (logfile.go:340): closes any current handle, opens the
path read-write (creating it, truncating when asked, appending otherwise),
records the size (0 when truncated, the stat size otherwise — the stat
cannot fail here because the open just ensured the path exists), then
allocates the buffered writer.  Returns `false` on open failure or on
writer-allocation failure, in which case the handle ends up nil. -/
def openLogFile (w : World) (truncated : Bool) (o : Oracles) : World × Bool :=
  let w := closeLog w
  if !o.openOk then
    ({ w with
       stderr := printError w.lp w.stderr "LogFile failed to create",
       lp := { w.lp with fileOpen := false } }, false)
  else
    let contents := if truncated then [] else (w.fs w.lp.fileName).getD []
    let fs := w.fs.set w.lp.fileName contents
    let size : Int := if truncated then 0 else contents.length
    let lp := { w.lp with fileOpen := true, size := size }
    if !o.bufOk then
      ({ lp := { lp with fileOpen := false },
         fs := fs,
         stderr := printError lp w.stderr "LogFile error cannot create buffer" }, false)
    else
      ({ lp := { lp with buf := some [] }, fs := fs, stderr := w.stderr }, true)

/-- `if lp.RotateFileFunc != nil { lp.RotateFileFunc() }` (logfile.go:407):
apply the rotation policy when one is configured. -/
def applyRotate (rf : Option (FS → FS)) (fs : FS) : FS :=
  match rf with
  | some f => f fs
  | none => fs

/-- The stderr mirror of `writeLog` (logfile.go:391-397), in the case where
the stderr write succeeds. -/
def mirrorToStderr (w : World) (p : List Byte) : World :=
  if w.lp.fileOnly then w else { w with stderr := w.stderr ++ [.payload p] }

/-- Lines 417-427 of `writeLog`: the buffered write of `p` (which succeeds,
so `n = len p`), the immediate flush when `FlushSeconds ≤ 0`, and the size
update. -/
def appendStep (w : World) (p : List Byte) : World :=
  let w1 : World := { w with lp := { w.lp with buf := w.lp.buf.map (· ++ p) } }
  let w2 := if w1.lp.flushSeconds ≤ 0 then flushLog w1 else w1
  { w2 with lp := { w2.lp with size := w2.lp.size + (p.length : Int) } }

/-- `writeLog` (logfile.go:388): mirror to stderr (abandoning the write when
that fails), drop the payload when the handle is closed, rotate when the
projected size reaches a positive `MaxSize`, then append. -/
def writeLog (w : World) (p : List Byte) (o : Oracles) : World :=
  if !w.lp.fileOnly && !o.stderrOk then w
  else
    let w := mirrorToStderr w p
    if !w.lp.fileOpen then w
    else if w.lp.maxSize > 0 ∧ w.lp.size + (p.length : Int) ≥ w.lp.maxSize then
      let w := closeLog w
      let w : World := { w with fs := applyRotate w.lp.rotateFunc w.fs }
      match openLogFile w true o with
      | (w, false) => w
      | (w, true) => appendStep w p
    else appendStep w p

/-- `rotateLog` (logfile.go:432): nothing when no rotate function is
configured; otherwise close, rotate, reopen in append mode. -/
def rotateLog (w : World) (o : Oracles) : World :=
  match w.lp.rotateFunc with
  | none => w
  | some f =>
    let w := closeLog w
    let w : World := { w with fs := f w.fs }
    (openLogFile w false o).1

/-- `vanishedLog` (logfile.go:456): stat the path; nothing when it is still
there, otherwise close and reopen in append mode. -/
def vanishedLog (w : World) (o : Oracles) : World :=
  if (w.fs w.lp.fileName).isSome then w
  else
    let w := closeLog w
    (openLogFile w false o).1

/-- `startLog` (logfile.go:328): optional rotate-on-start, then open with
truncation governed by the overwrite-on-start flag. -/
def startLog (w : World) (o : Oracles) : World × Bool :=
  let w : World :=
    if w.lp.rotateOnStart then { w with fs := applyRotate w.lp.rotateFunc w.fs }
    else w
  openLogFile w w.lp.overWriteOnStart o

/-- The rename loop of `RotateFileFuncDefault` (logfile.go:518-530): the
argument `k` counts the iterations still to run, so the call with `k = N`
handles versions `N-1, N-2, …, 0` in that (descending) order. -/
def rotateRenames (fileName : String) : Nat → FS → FS
  | 0, fs => fs
  | k + 1, fs =>
    let oldFilename := FileNameVersion fileName (k : Int)
    let olderFileName := FileNameVersion fileName ((k : Int) + 1)
    let fs1 := if (fs oldFilename).isSome then fs.rename oldFilename olderFileName else fs
    rotateRenames fileName k fs1

/-- `RotateFileFuncDefault` (logfile.go:502): only rotates when
`OldVersions` is positive; deletes the oldest version, then renames
`log → log.1`, `log.1 → log.2`, … -/
def RotateFileFuncDefault (fileName : String) (oldVersions : Int) (fs : FS) : FS :=
  if oldVersions ≤ 0 then fs
  else
    let oldFileName := FileNameVersion fileName oldVersions
    let fs1 := if (fs oldFileName).isSome then fs.remove oldFileName else fs
    rotateRenames fileName oldVersions.toNat fs1

/-- What the public `Write` (logfile.go:546) produces: the payload it queues
for the controller and the `(n, err)` pair returned to the caller. -/
structure WriteResult where
  queued : List Byte
  n : Nat
  err : Option String

/-- The public `Write`: copies `p` (so the caller may reuse its buffer),
queues the copy, and reports `(len p, nil)` unconditionally. -/
def Write (p : List Byte) : WriteResult :=
  let pLen := p.length
  let buf := p.take pLen
  { queued := buf, n := pLen, err := none }

/-- Processing a sequence of write commands in submission order. -/
def runWrites (o : Oracles) : World → List (List Byte) → World
  | w, [] => w
  | w, p :: ps => runWrites o (writeLog w p o) ps

/-! ### Helper lemmas about the decimal names -/

theorem natRepr_ne (k1 k2 : Nat) (h : k1 ≠ k2) : Nat.repr k1 ≠ Nat.repr k2 :=
  fun he => h (natRepr_injective k1 k2 he)

theorem string_append_ne_self (f r : String) : f ≠ f ++ "." ++ r := by
  intro he
  have hl := congrArg String.length he
  simp only [String.length_append] at hl
  have hdot : ("." : String).length = 1 := rfl
  omega

theorem fileNameVersion_zero (f : String) : FileNameVersion f 0 = f := rfl

theorem fileNameVersion_pos (f : String) (k : Int) (h : k ≠ 0) :
    FileNameVersion f k = f ++ "." ++ toString k := by
  unfold FileNameVersion
  rw [if_neg h]

theorem string_append_right_cancel (a s1 s2 : String) (h : a ++ s1 = a ++ s2) :
    s1 = s2 := by
  have hd := congrArg String.data h
  have hd2 : a.data ++ s1.data = a.data ++ s2.data := hd
  have := List.append_cancel_left hd2
  cases s1; cases s2; simp_all

theorem fileNameVersion_injOn_nat (f : String) (k1 k2 : Nat) (h : k1 ≠ k2) :
    FileNameVersion f (k1 : Int) ≠ FileNameVersion f (k2 : Int) := by
  rcases Nat.eq_zero_or_pos k1 with h1 | h1
  · subst h1
    have h2 : (k2 : Int) ≠ 0 := by omega
    simp only [Nat.cast_zero]
    rw [fileNameVersion_zero, fileNameVersion_pos f _ h2]
    exact string_append_ne_self f _
  · rcases Nat.eq_zero_or_pos k2 with h2 | h2
    · subst h2
      have h1b : (k1 : Int) ≠ 0 := by omega
      simp only [Nat.cast_zero]
      rw [fileNameVersion_zero, fileNameVersion_pos f _ h1b]
      exact (string_append_ne_self f _).symm
    · rw [fileNameVersion_pos f _ (by omega), fileNameVersion_pos f _ (by omega)]
      intro he
      rw [toString_intOfNat, toString_intOfNat] at he
      exact natRepr_ne k1 k2 h (string_append_right_cancel (f ++ ".") _ _ he)

/-! ### The default rotation policy as the specification describes it -/

/-- Modelled from the spec: the default rotation policy as §4.3 words it.
For retained-version count `N`: nothing when `N = 0`; otherwise delete
`basePath.N` when it exists, then for `v = N-1` down to `0` rename each
existing `basePath.v` to `basePath.(v+1)`, skipping absent versions. -/
def rotateByDescription (basePath : String) (n : Nat) (fs : FS) : FS :=
  if n = 0 then fs
  else
    let oldest := FileNameVersion basePath (n : Int)
    let fs1 := if (fs oldest).isSome then fs.remove oldest else fs
    ((List.range n).reverse).foldl
      (fun (acc : FS) (v : Nat) =>
        if (acc (FileNameVersion basePath (v : Int))).isSome then
          acc.rename (FileNameVersion basePath (v : Int))
            (FileNameVersion basePath ((v : Int) + 1))
        else acc) fs1

theorem rotateRenames_eq_foldl (basePath : String) : ∀ (k : Nat) (fs : FS),
    rotateRenames basePath k fs =
    ((List.range k).reverse).foldl
      (fun (acc : FS) (v : Nat) =>
        if (acc (FileNameVersion basePath (v : Int))).isSome then
          acc.rename (FileNameVersion basePath (v : Int))
            (FileNameVersion basePath ((v : Int) + 1))
        else acc) fs := by
  intro k
  induction k with
  | zero => intro fs; simp [rotateRenames]
  | succ k ih =>
    intro fs
    rw [List.range_succ]
    simp only [List.reverse_append, List.reverse_cons, List.reverse_nil,
      List.nil_append, List.cons_append, List.foldl_cons]
    rw [rotateRenames, ih]

/-! ### Claim theorems -/

/-- C3: the default rotation policy, for retained-version count `N`, does
nothing at all when `N = 0`, and otherwise first deletes `basePath.N` when
that path exists and then renames each existing `basePath.v`, for `v` from
`N-1` down to `0`, to `basePath.(v+1)`, skipping absent versions — i.e. it
coincides with the specification-side description `rotateByDescription`. -/
theorem rotateDefault_matches_description (basePath : String) (n : Nat) (fs : FS) :
    RotateFileFuncDefault basePath (n : Int) fs = rotateByDescription basePath n fs := by
  unfold RotateFileFuncDefault rotateByDescription
  by_cases h : n = 0
  · subst h; simp
  · rw [if_neg (by omega : ¬(n : Int) ≤ 0), if_neg h]
    simp only [Int.toNat_natCast]
    rw [rotateRenames_eq_foldl]

/-- C7: the public `Write` always returns `(len p, nil)` — full length,
no error — whatever later happens to the queued payload (which is an exact
copy of `p`). -/
theorem write_reports_full_length (p : List Byte) :
    (Write p).n = p.length ∧ (Write p).err = none ∧ (Write p).queued = p := by
  refine ⟨rfl, rfl, ?_⟩
  simp [Write]

/-- C8: the versioned-file-name function is a pure function with: version 0
giving the base path unchanged, any version `k > 0` giving the base path
with `.k` appended, and distinct version numbers giving distinct paths for
a fixed base path. -/
theorem fileNameVersion_props (fileName : String) :
    FileNameVersion fileName 0 = fileName ∧
    (∀ k : Int, 0 < k → FileNameVersion fileName k = fileName ++ "." ++ toString k) ∧
    ∀ k1 k2 : Nat, k1 ≠ k2 →
      FileNameVersion fileName (k1 : Int) ≠ FileNameVersion fileName (k2 : Int) :=
  ⟨fileNameVersion_zero fileName,
   fun k hk => fileNameVersion_pos fileName k (by omega),
   fun k1 k2 h => fileNameVersion_injOn_nat fileName k1 k2 h⟩

theorem fileNameVersion_props_witness :
    (0 : Int) < 7 ∧ (3 : Nat) ≠ 4 ∧
    FileNameVersion "app.log" 7 = "app.log" ++ "." ++ toString (7 : Int) ∧
    FileNameVersion "app.log" ((3 : Nat) : Int) ≠ FileNameVersion "app.log" ((4 : Nat) : Int) :=
  ⟨by decide, by decide,
   (fileNameVersion_props "app.log").2.1 7 (by decide),
   (fileNameVersion_props "app.log").2.2 3 4 (by decide)⟩

/-- A concrete open sink with mirroring to stderr enabled. -/
def mirrorWorld : World :=
  { lp := { fileOnly := false, overWriteOnStart := false, rotateOnStart := false,
            noErrors := false, fileName := "log", maxSize := 0, oldVersions := 0,
            flushSeconds := 3, rotateFunc := none, fileOpen := true, size := 0,
            buf := some [] },
    fs := fun q => if q = "log" then some [] else none,
    stderr := [] }

/-- C4 counterexample: with mirroring enabled and the stderr write failing,
`writeLog` returns with the state completely unchanged — in particular the
payload `[42]` is NOT appended to the file buffer, contradicting the claim
that a secondary-stream failure is ignored and the payload still appended. -/
theorem mirror_failure_cex :
    writeLog mirrorWorld [42] ⟨true, true, false⟩ = mirrorWorld ∧
    (writeLog mirrorWorld [42] ⟨true, true, false⟩).lp.buf ≠ some ([] ++ [42]) := by
  constructor
  · rfl
  · intro h
    simp [writeLog, mirrorWorld] at h

/-- C4 amended: for every processed write with mirroring enabled, a failure
of the secondary-stream write causes the whole write to be abandoned: the
state (buffer, size, file system, stderr) is left unchanged and the payload
is NOT appended to the file buffer. -/
theorem mirror_failure_abandons_write (w : World) (p : List Byte) (o : Oracles)
    (hmirror : w.lp.fileOnly = false) (hfail : o.stderrOk = false) :
    writeLog w p o = w := by
  simp [writeLog, hmirror, hfail]

theorem mirror_failure_abandons_write_witness :
    mirrorWorld.lp.fileOnly = false ∧ (Oracles.mk true true false).stderrOk = false ∧
    writeLog mirrorWorld [42] ⟨true, true, false⟩ = mirrorWorld :=
  ⟨rfl, rfl, mirror_failure_abandons_write mirrorWorld [42] ⟨true, true, false⟩ rfl rfl⟩

/-- C9: a write command processed while the handle is closed is silently
discarded: apart from the optional mirror of the payload to stderr, the
`LogFile` state and the file system are untouched and no error message is
emitted anywhere. -/
theorem writeLog_closed_discards (w : World) (p : List Byte) (o : Oracles)
    (hclosed : w.lp.fileOpen = false) :
    writeLog w p o = (if !w.lp.fileOnly && !o.stderrOk then w else mirrorToStderr w p) ∧
    (mirrorToStderr w p).lp = w.lp ∧
    (mirrorToStderr w p).fs = w.fs ∧
    (mirrorToStderr w p).stderr =
      w.stderr ++ (if w.lp.fileOnly then [] else [StderrEvent.payload p]) := by
  refine ⟨?_, ?_, ?_, ?_⟩
  · by_cases habort : (!w.lp.fileOnly && !o.stderrOk) = true
    · simp [writeLog, habort]
    · have hm : (mirrorToStderr w p).lp.fileOpen = false := by
        unfold mirrorToStderr
        by_cases hf : w.lp.fileOnly <;> simp [hf, hclosed]
      simp [writeLog, habort, hm]
  · unfold mirrorToStderr
    by_cases hf : w.lp.fileOnly <;> simp [hf]
  · unfold mirrorToStderr
    by_cases hf : w.lp.fileOnly <;> simp [hf]
  · unfold mirrorToStderr
    by_cases hf : w.lp.fileOnly <;> simp [hf]

/-- A concrete sink whose handle is closed. -/
def closedWorld : World :=
  { lp := { fileOnly := false, overWriteOnStart := false, rotateOnStart := false,
            noErrors := false, fileName := "log", maxSize := 0, oldVersions := 0,
            flushSeconds := 3, rotateFunc := none, fileOpen := false, size := 0,
            buf := some [] },
    fs := fun q => if q = "log" then some [] else none,
    stderr := [] }

theorem closeLog_fileName (w : World) : (closeLog w).lp.fileName = w.lp.fileName := by
  unfold closeLog flushLog
  by_cases h : w.lp.fileOpen <;> simp [h]

theorem closeLog_fileOpen (w : World) : (closeLog w).lp.fileOpen = false := by
  unfold closeLog flushLog
  by_cases h : w.lp.fileOpen <;> simp [h]

theorem closeLog_of_closed (w : World) (h : w.lp.fileOpen = false) : closeLog w = w := by
  unfold closeLog
  simp [h]

/-- Replacing the file system of a world (used to state the close-rotate-reopen
pipelines). -/
def setFS (w : World) (fs1 : FS) : World :=
  { w with fs := fs1 }

/-- The result of a fully successful `openLogFile` on an already-closed world. -/
theorem openLogFile_success (w : World) (t : Bool) (o : Oracles)
    (hcl : w.lp.fileOpen = false) (ho : o.openOk = true) (hb : o.bufOk = true) :
    openLogFile w t o =
      ({ lp := { w.lp with
           fileOpen := true, buf := some [],
           size := if t then 0 else (((w.fs w.lp.fileName).getD []).length : Int) },
         fs := w.fs.set w.lp.fileName (if t then [] else (w.fs w.lp.fileName).getD []),
         stderr := w.stderr }, true) := by
  unfold openLogFile
  rw [closeLog_of_closed w hcl]
  simp [ho, hb]
  by_cases ht : t <;> simp [ht]

/-- C6: when the existence-check timer fires with the handle open,
`vanishedLog` stats the path: if the path is present the whole state is
left unchanged; if it is absent (and reopening succeeds) the handle is
closed and the path reopened in append mode, yielding a fresh empty file
with recorded size 0. -/
theorem vanishedLog_behavior (w : World) (o : Oracles) (hopen : w.lp.fileOpen = true) :
    ((w.fs w.lp.fileName).isSome = true → vanishedLog w o = w) ∧
    (w.fs w.lp.fileName = none → o.openOk = true → o.bufOk = true →
      vanishedLog w o = (openLogFile (closeLog w) false o).1 ∧
      (vanishedLog w o).lp.fileOpen = true ∧
      (vanishedLog w o).fs w.lp.fileName = some [] ∧
      (vanishedLog w o).lp.size = 0) := by
  constructor
  · intro hsome
    simp [vanishedLog, hsome]
  · intro habs ho hb
    have h1 : vanishedLog w o = (openLogFile (closeLog w) false o).1 := by
      simp [vanishedLog, habs]
    have hfsc : (closeLog w).fs w.lp.fileName = none := by
      unfold closeLog flushLog
      simp [hopen, habs]
    have h2 := openLogFile_success (closeLog w) false o (closeLog_fileOpen w) ho hb
    rw [closeLog_fileName] at h2
    refine ⟨h1, ?_, ?_, ?_⟩ <;>
      rw [h1, h2] <;> simp [FS.set, hfsc]

/-- A concrete open sink whose file has vanished from the file system. -/
def vanishedWorld : World :=
  { lp := { fileOnly := true, overWriteOnStart := false, rotateOnStart := false,
            noErrors := false, fileName := "log", maxSize := 0, oldVersions := 0,
            flushSeconds := -1, rotateFunc := none, fileOpen := true, size := 2,
            buf := some [] },
    fs := fun _ => none,
    stderr := [] }

theorem vanishedLog_behavior_witness :
    vanishedWorld.lp.fileOpen = true ∧
    vanishedWorld.fs vanishedWorld.lp.fileName = none ∧
    ((vanishedWorld.fs vanishedWorld.lp.fileName).isSome = true →
      vanishedLog vanishedWorld ⟨true, true, true⟩ = vanishedWorld) ∧
    (vanishedWorld.fs vanishedWorld.lp.fileName = none →
      (Oracles.mk true true true).openOk = true → (Oracles.mk true true true).bufOk = true →
      vanishedLog vanishedWorld ⟨true, true, true⟩ =
        (openLogFile (closeLog vanishedWorld) false ⟨true, true, true⟩).1 ∧
      (vanishedLog vanishedWorld ⟨true, true, true⟩).lp.fileOpen = true ∧
      (vanishedLog vanishedWorld ⟨true, true, true⟩).fs vanishedWorld.lp.fileName = some [] ∧
      (vanishedLog vanishedWorld ⟨true, true, true⟩).lp.size = 0) :=
  ⟨rfl, rfl,
   (vanishedLog_behavior vanishedWorld ⟨true, true, true⟩ rfl).1,
   (vanishedLog_behavior vanishedWorld ⟨true, true, true⟩ rfl).2⟩

/-- C5: a processed explicit rotate command (with a configured rotation
policy, and the reopen succeeding) closes the current file — flushing it
first if open, which is what `closeLog` does — invokes the rotation policy
on the resulting file system, reopens the path in append mode (not
truncated, so existing contents survive), and records the reopened file's
on-disk size as the current size. -/
theorem rotateLog_behavior (w : World) (o : Oracles) (f : FS → FS)
    (hf : w.lp.rotateFunc = some f) (ho : o.openOk = true) (hb : o.bufOk = true) :
    rotateLog w o =
      (openLogFile (setFS (closeLog w) (f (closeLog w).fs)) false o).1 ∧
    (rotateLog w o).lp.fileOpen = true ∧
    (rotateLog w o).fs w.lp.fileName =
      some ((f (closeLog w).fs w.lp.fileName).getD []) ∧
    (rotateLog w o).lp.size = (((f (closeLog w).fs w.lp.fileName).getD []).length : Int) := by
  have h1 : rotateLog w o =
      (openLogFile (setFS (closeLog w) (f (closeLog w).fs)) false o).1 := by
    simp only [rotateLog, hf]
    rfl
  have hcl : (setFS (closeLog w) (f (closeLog w).fs)).lp.fileOpen = false := by
    simp [setFS, closeLog_fileOpen]
  have h2 := openLogFile_success (setFS (closeLog w) (f (closeLog w).fs)) false o hcl ho hb
  have hname : (setFS (closeLog w) (f (closeLog w).fs)).lp.fileName = w.lp.fileName := by
    simp [setFS, closeLog_fileName]
  rw [hname] at h2
  refine ⟨h1, ?_, ?_, ?_⟩ <;> rw [h1, h2] <;> simp [setFS, FS.set]

/-- A concrete open sink with a configured (identity) rotation policy. -/
def rotateWorld : World :=
  { lp := { fileOnly := true, overWriteOnStart := false, rotateOnStart := false,
            noErrors := false, fileName := "log", maxSize := 0, oldVersions := 0,
            flushSeconds := -1, rotateFunc := some (fun fs => fs), fileOpen := true,
            size := 1, buf := some [] },
    fs := fun q => if q = "log" then some [9] else none,
    stderr := [] }

theorem rotateLog_behavior_witness :
    rotateWorld.lp.rotateFunc = some (fun fs => fs) ∧
    (rotateLog rotateWorld ⟨true, true, true⟩ =
      (openLogFile (setFS (closeLog rotateWorld) ((fun fs => fs) (closeLog rotateWorld).fs))
        false ⟨true, true, true⟩).1 ∧
     (rotateLog rotateWorld ⟨true, true, true⟩).lp.fileOpen = true ∧
     (rotateLog rotateWorld ⟨true, true, true⟩).fs rotateWorld.lp.fileName =
       some (((fun fs => fs) (closeLog rotateWorld).fs rotateWorld.lp.fileName).getD []) ∧
     (rotateLog rotateWorld ⟨true, true, true⟩).lp.size =
       ((((fun fs => fs) (closeLog rotateWorld).fs rotateWorld.lp.fileName).getD []).length : Int)) :=
  ⟨rfl, rotateLog_behavior rotateWorld ⟨true, true, true⟩ (fun fs => fs) rfl rfl rfl⟩

theorem writeLog_closed_discards_witness :
    closedWorld.lp.fileOpen = false ∧
    (writeLog closedWorld [7] ⟨true, true, true⟩ =
      (if !closedWorld.lp.fileOnly && !(Oracles.mk true true true).stderrOk then closedWorld
       else mirrorToStderr closedWorld [7]) ∧
     (mirrorToStderr closedWorld [7]).lp = closedWorld.lp ∧
     (mirrorToStderr closedWorld [7]).fs = closedWorld.fs ∧
     (mirrorToStderr closedWorld [7]).stderr =
       closedWorld.stderr ++
         (if closedWorld.lp.fileOnly then [] else [StderrEvent.payload [7]])) :=
  ⟨rfl, writeLog_closed_discards closedWorld [7] ⟨true, true, true⟩ rfl⟩

theorem mirror_lp (w : World) (p : List Byte) : (mirrorToStderr w p).lp = w.lp := by
  unfold mirrorToStderr
  by_cases hf : w.lp.fileOnly <;> simp [hf]

theorem mirror_fs (w : World) (p : List Byte) : (mirrorToStderr w p).fs = w.fs := by
  unfold mirrorToStderr
  by_cases hf : w.lp.fileOnly <;> simp [hf]

theorem closeLog_rotateFunc (w : World) :
    (closeLog w).lp.rotateFunc = w.lp.rotateFunc := by
  unfold closeLog flushLog
  by_cases h : w.lp.fileOpen <;> simp [h]

theorem closeLog_flushSeconds (w : World) :
    (closeLog w).lp.flushSeconds = w.lp.flushSeconds := by
  unfold closeLog flushLog
  by_cases h : w.lp.fileOpen <;> simp [h]

theorem appendStep_fileOpen (w : World) (p : List Byte) :
    (appendStep w p).lp.fileOpen = w.lp.fileOpen := by
  unfold appendStep flushLog
  by_cases hfl : w.lp.flushSeconds ≤ 0 <;> by_cases h : w.lp.fileOpen <;> simp [hfl, h]

theorem appendStep_fileName (w : World) (p : List Byte) :
    (appendStep w p).lp.fileName = w.lp.fileName := by
  unfold appendStep flushLog
  by_cases hfl : w.lp.flushSeconds ≤ 0 <;> by_cases h : w.lp.fileOpen <;> simp [hfl, h]

theorem appendStep_maxSize (w : World) (p : List Byte) :
    (appendStep w p).lp.maxSize = w.lp.maxSize := by
  unfold appendStep flushLog
  by_cases hfl : w.lp.flushSeconds ≤ 0 <;> by_cases h : w.lp.fileOpen <;> simp [hfl, h]

theorem appendStep_flushSeconds (w : World) (p : List Byte) :
    (appendStep w p).lp.flushSeconds = w.lp.flushSeconds := by
  unfold appendStep flushLog
  by_cases hfl : w.lp.flushSeconds ≤ 0 <;> by_cases h : w.lp.fileOpen <;> simp [hfl, h]

theorem appendStep_size (w : World) (p : List Byte) :
    (appendStep w p).lp.size = w.lp.size + (p.length : Int) := by
  unfold appendStep flushLog
  by_cases hfl : w.lp.flushSeconds ≤ 0 <;> by_cases h : w.lp.fileOpen <;> simp [hfl, h]

theorem appendStep_fs_other (w : World) (p : List Byte) (q : String)
    (hq : q ≠ w.lp.fileName) : (appendStep w p).fs q = w.fs q := by
  unfold appendStep flushLog
  by_cases hfl : w.lp.flushSeconds ≤ 0 <;> by_cases h : w.lp.fileOpen <;> simp [hfl, h, hq]

/-- The combined effect of the buffered write of `p` on the buffer and the
file: whatever the flush mode, file-contents-plus-buffer grows by exactly
`p` at the end. -/
theorem appendStep_state (w : World) (p c b : List Byte)
    (hopen : w.lp.fileOpen = true) (hbuf : w.lp.buf = some b)
    (hc : w.fs w.lp.fileName = some c) :
    ∃ c2 b2, (appendStep w p).lp.buf = some b2 ∧
      (appendStep w p).fs w.lp.fileName = some c2 ∧
      c2 ++ b2 = (c ++ b) ++ p := by
  unfold appendStep flushLog
  by_cases hfl : w.lp.flushSeconds ≤ 0
  · refine ⟨c ++ (b ++ p), [], ?_, ?_, ?_⟩ <;>
      simp [hfl, hopen, hbuf, hc, List.append_assoc]
  · refine ⟨c, b ++ p, ?_, ?_, ?_⟩ <;>
      simp [hfl, hopen, hbuf, hc, List.append_assoc]

theorem prod_eta_true {α : Type} (x : α × Bool) (h : x.2 = true) :
    x = (x.1, true) := by
  rw [← h]

/-- Component form of a fully successful `openLogFile`. -/
theorem openLogFile_success_parts (w : World) (t : Bool) (o : Oracles)
    (hcl : w.lp.fileOpen = false) (ho : o.openOk = true) (hb : o.bufOk = true) :
    (openLogFile w t o).2 = true ∧
    (openLogFile w t o).1.lp.fileOpen = true ∧
    (openLogFile w t o).1.lp.buf = some [] ∧
    (openLogFile w t o).1.lp.fileName = w.lp.fileName ∧
    (openLogFile w t o).1.lp.flushSeconds = w.lp.flushSeconds ∧
    (openLogFile w t o).1.lp.size =
      (if t then 0 else (((w.fs w.lp.fileName).getD []).length : Int)) ∧
    (openLogFile w t o).1.fs =
      w.fs.set w.lp.fileName (if t then [] else (w.fs w.lp.fileName).getD []) := by
  rw [openLogFile_success w t o hcl ho hb]
  by_cases ht : t <;> simp [ht]

/-- C1: a write of payload `p` processed while the handle is open (and the
stderr mirror not failing): when `MaxSize` is positive and
`size + len p >= MaxSize` — note the inclusive comparison, hitting the cap
exactly also rotates — the controller closes the file (flushing it), runs
the rotation policy, reopens the file truncated with recorded size 0, and
only then appends `p`, so afterwards the file-plus-buffer contents are
exactly `p` and the size is `len p`; when `MaxSize = 0` or the projected
size stays below the cap, `p` is appended with no rotation at all. -/
theorem writeLog_threshold (w : World) (p : List Byte) (o : Oracles)
    (hopen : w.lp.fileOpen = true)
    (hmirror : w.lp.fileOnly = true ∨ o.stderrOk = true) :
    ((w.lp.maxSize > 0 ∧ w.lp.size + (p.length : Int) ≥ w.lp.maxSize) →
      o.openOk = true → o.bufOk = true →
      (writeLog w p o).lp.fileOpen = true ∧
      (writeLog w p o).lp.size = (p.length : Int) ∧
      ((writeLog w p o).fs w.lp.fileName).getD [] ++ (writeLog w p o).lp.buf.getD [] = p ∧
      (∀ q, q ≠ w.lp.fileName →
        (writeLog w p o).fs q =
          applyRotate w.lp.rotateFunc (closeLog (mirrorToStderr w p)).fs q)) ∧
    ((w.lp.maxSize = 0 ∨ w.lp.size + (p.length : Int) < w.lp.maxSize) →
      writeLog w p o = appendStep (mirrorToStderr w p) p) := by
  have habort : (!w.lp.fileOnly && !o.stderrOk) = false := by
    rcases hmirror with h | h <;> simp [h]
  have hlp : (mirrorToStderr w p).lp = w.lp := mirror_lp w p
  constructor
  · intro hc ho hb
    have hcrf : (closeLog (mirrorToStderr w p)).lp.rotateFunc = w.lp.rotateFunc := by
      rw [closeLog_rotateFunc, hlp]
    have hW3cl : (⟨(closeLog (mirrorToStderr w p)).lp,
        applyRotate w.lp.rotateFunc (closeLog (mirrorToStderr w p)).fs,
        (closeLog (mirrorToStderr w p)).stderr⟩ : World).lp.fileOpen = false :=
      closeLog_fileOpen (mirrorToStderr w p)
    have hparts := openLogFile_success_parts
      ⟨(closeLog (mirrorToStderr w p)).lp,
       applyRotate w.lp.rotateFunc (closeLog (mirrorToStderr w p)).fs,
       (closeLog (mirrorToStderr w p)).stderr⟩ true o hW3cl ho hb
    obtain ⟨h2, hfo, hbuf, hfn, hfs2, hsz, hfs⟩ := hparts
    have hpair : openLogFile
        ⟨(closeLog (mirrorToStderr w p)).lp,
         applyRotate w.lp.rotateFunc (closeLog (mirrorToStderr w p)).fs,
         (closeLog (mirrorToStderr w p)).stderr⟩ true o =
        ((openLogFile
          ⟨(closeLog (mirrorToStderr w p)).lp,
           applyRotate w.lp.rotateFunc (closeLog (mirrorToStderr w p)).fs,
           (closeLog (mirrorToStderr w p)).stderr⟩ true o).1, true) :=
      prod_eta_true _ h2
    have hw : writeLog w p o =
        appendStep (openLogFile
          ⟨(closeLog (mirrorToStderr w p)).lp,
           applyRotate w.lp.rotateFunc (closeLog (mirrorToStderr w p)).fs,
           (closeLog (mirrorToStderr w p)).stderr⟩ true o).1 p := by
      unfold writeLog
      rw [habort]
      simp only [Bool.false_eq_true, if_false]
      rw [if_neg (by simp [hlp, hopen] : ¬(!(mirrorToStderr w p).lp.fileOpen) = true)]
      rw [if_pos (by rw [hlp]; exact hc)]
      show (match openLogFile
          ⟨(closeLog (mirrorToStderr w p)).lp,
           applyRotate (closeLog (mirrorToStderr w p)).lp.rotateFunc
             (closeLog (mirrorToStderr w p)).fs,
           (closeLog (mirrorToStderr w p)).stderr⟩ true o with
        | (w, false) => w
        | (w, true) => appendStep w p) = _
      rw [hcrf, hpair]
    rw [hw]
    -- the name recorded in the opened state is the original file name
    have hfn2 : (closeLog (mirrorToStderr w p)).lp.fileName = w.lp.fileName := by
      rw [closeLog_fileName, hlp]
    rw [hfn2] at hfn hsz hfs
    refine ⟨?_, ?_, ?_, ?_⟩
    · rw [appendStep_fileOpen, hfo]
    · rw [appendStep_size, hsz]
      simp
    · have hcontents : (openLogFile
          ⟨(closeLog (mirrorToStderr w p)).lp,
           applyRotate w.lp.rotateFunc (closeLog (mirrorToStderr w p)).fs,
           (closeLog (mirrorToStderr w p)).stderr⟩ true o).1.fs
          ((openLogFile
          ⟨(closeLog (mirrorToStderr w p)).lp,
           applyRotate w.lp.rotateFunc (closeLog (mirrorToStderr w p)).fs,
           (closeLog (mirrorToStderr w p)).stderr⟩ true o).1.lp.fileName) = some [] := by
        rw [hfn, hfs]
        simp [FS.set]
      obtain ⟨c2, b2, hb2, hc2, hjoin⟩ := appendStep_state _ p [] [] hfo hbuf hcontents
      rw [hfn] at hc2
      rw [hc2, hb2]
      simpa using hjoin
    · intro q hq
      rw [appendStep_fs_other _ p q (by rw [hfn]; exact hq), hfs]
      simp [FS.set, hq]
  · intro hnc
    have hcond : ¬(w.lp.maxSize > 0 ∧ w.lp.size + (p.length : Int) ≥ w.lp.maxSize) := by
      rcases hnc with h | h <;> omega
    unfold writeLog
    rw [habort]
    simp only [Bool.false_eq_true, if_false]
    rw [if_neg (by simp [hlp, hopen] : ¬(!(mirrorToStderr w p).lp.fileOpen) = true)]
    rw [if_neg (by rw [hlp]; exact hcond)]

/-- A concrete open sink sitting at 3 bytes with a 5-byte cap: the 2-byte
write hits the cap exactly, exercising the inclusive threshold. -/
def thresholdWorld : World :=
  { lp := { fileOnly := true, overWriteOnStart := false, rotateOnStart := false,
            noErrors := false, fileName := "log", maxSize := 5, oldVersions := 1,
            flushSeconds := -1, rotateFunc := some (fun fs => fs), fileOpen := true,
            size := 3, buf := some [] },
    fs := fun q => if q = "log" then some [9, 9, 9] else none,
    stderr := [] }

theorem writeLog_threshold_witness :
    thresholdWorld.lp.fileOpen = true ∧
    (thresholdWorld.lp.fileOnly = true ∨ (Oracles.mk true true true).stderrOk = true) ∧
    (thresholdWorld.lp.maxSize > 0 ∧
      thresholdWorld.lp.size + (([7, 8] : List Byte).length : Int) ≥ thresholdWorld.lp.maxSize) ∧
    ((writeLog thresholdWorld [7, 8] ⟨true, true, true⟩).lp.fileOpen = true ∧
     (writeLog thresholdWorld [7, 8] ⟨true, true, true⟩).lp.size = (([7, 8] : List Byte).length : Int) ∧
     ((writeLog thresholdWorld [7, 8] ⟨true, true, true⟩).fs thresholdWorld.lp.fileName).getD []
       ++ (writeLog thresholdWorld [7, 8] ⟨true, true, true⟩).lp.buf.getD [] = [7, 8] ∧
     (∀ q, q ≠ thresholdWorld.lp.fileName →
       (writeLog thresholdWorld [7, 8] ⟨true, true, true⟩).fs q =
         applyRotate thresholdWorld.lp.rotateFunc
           (closeLog (mirrorToStderr thresholdWorld [7, 8])).fs q)) :=
  ⟨rfl, Or.inl rfl, by decide,
   (writeLog_threshold thresholdWorld [7, 8] ⟨true, true, true⟩ rfl (Or.inl rfl)).1
     (by decide) rfl rfl⟩

/-- Invariant carried through a sequence of writes with `MaxSize = 0`:
the handle stays open and file-contents-plus-buffer is the initial contents
followed by the concatenation of all payloads, in submission order. -/
theorem runWrites_spec (o : Oracles) (hstderr : o.stderrOk = true) :
    ∀ (ps : List (List Byte)) (w : World) (c b : List Byte),
      w.lp.fileOpen = true → w.lp.maxSize = 0 →
      w.lp.buf = some b → w.fs w.lp.fileName = some c →
      (runWrites o w ps).lp.fileOpen = true ∧
      (runWrites o w ps).lp.maxSize = 0 ∧
      (runWrites o w ps).lp.fileName = w.lp.fileName ∧
      ∃ c2 b2, (runWrites o w ps).lp.buf = some b2 ∧
        (runWrites o w ps).fs w.lp.fileName = some c2 ∧
        c2 ++ b2 = (c ++ b) ++ ps.flatten := by
  intro ps
  induction ps with
  | nil =>
    intro w c b hopen hmax hbuf hc
    exact ⟨hopen, hmax, rfl, c, b, hbuf, hc, by simp⟩
  | cons p ps ih =>
    intro w c b hopen hmax hbuf hc
    have habort : (!w.lp.fileOnly && !o.stderrOk) = false := by simp [hstderr]
    have hlp : (mirrorToStderr w p).lp = w.lp := mirror_lp w p
    have hfsm : (mirrorToStderr w p).fs = w.fs := mirror_fs w p
    have hnc : w.lp.maxSize = 0 ∨ w.lp.size + (p.length : Int) < w.lp.maxSize := Or.inl hmax
    have hw : writeLog w p o = appendStep (mirrorToStderr w p) p := by
      unfold writeLog
      rw [habort]
      simp only [Bool.false_eq_true, if_false]
      rw [if_neg (by simp [hlp, hopen] : ¬(!(mirrorToStderr w p).lp.fileOpen) = true)]
      rw [if_neg (by rw [hlp, hmax]; intro hcc; omega)]
    have hmopen : (mirrorToStderr w p).lp.fileOpen = true := by rw [hlp]; exact hopen
    have hmbuf : (mirrorToStderr w p).lp.buf = some b := by rw [hlp]; exact hbuf
    have hmc : (mirrorToStderr w p).fs (mirrorToStderr w p).lp.fileName = some c := by
      rw [hlp, hfsm]; exact hc
    obtain ⟨c1, b1, hb1, hc1, hjoin1⟩ := appendStep_state (mirrorToStderr w p) p c b hmopen hmbuf hmc
    have hafo : (appendStep (mirrorToStderr w p) p).lp.fileOpen = true := by
      rw [appendStep_fileOpen]; exact hmopen
    have hamax : (appendStep (mirrorToStderr w p) p).lp.maxSize = 0 := by
      rw [appendStep_maxSize, hlp]; exact hmax
    have hafn : (appendStep (mirrorToStderr w p) p).lp.fileName = w.lp.fileName := by
      rw [appendStep_fileName, hlp]
    rw [hlp] at hc1
    have hc1b : (appendStep (mirrorToStderr w p) p).fs
        (appendStep (mirrorToStderr w p) p).lp.fileName = some c1 := by
      rw [hafn]; exact hc1
    have hstep := ih (appendStep (mirrorToStderr w p) p) c1 b1 hafo hamax hb1 hc1b
    have hrw : runWrites o w (p :: ps) = runWrites o (appendStep (mirrorToStderr w p) p) ps := by
      show runWrites o (writeLog w p o) ps = _
      rw [hw]
    rw [hrw]
    obtain ⟨h1, h2, h3, c2, b2, hb2, hc2, hjoin2⟩ := hstep
    rw [hafn] at h3 hc2
    refine ⟨h1, h2, h3, c2, b2, hb2, hc2, ?_⟩
    rw [hjoin2, hjoin1]
    simp [List.append_assoc]

/-- C2: starting from a successfully opened empty file with `MaxSize = 0`
(unlimited) and every OS operation succeeding, after any finite sequence of
write submissions followed by a close — the close completion having been
sent — the file holds exactly the concatenation of the submitted payloads,
in submission order, with the corresponding byte length. -/
theorem write_close_roundtrip (w : World) (o : Oracles) (ps : List (List Byte))
    (hopen : w.lp.fileOpen = true) (hmax : w.lp.maxSize = 0)
    (hbuf : w.lp.buf = some []) (hfile : w.fs w.lp.fileName = some [])
    (hstderr : o.stderrOk = true) :
    (closeLog (runWrites o w ps)).fs w.lp.fileName = some ps.flatten ∧
    ((closeLog (runWrites o w ps)).fs w.lp.fileName).map List.length =
      some ps.flatten.length := by
  obtain ⟨h1, _, h3, c2, b2, hb2, hc2, hjoin⟩ :=
    runWrites_spec o hstderr ps w [] [] hopen hmax hbuf hfile
  simp only [List.nil_append] at hjoin
  have hfinal : (closeLog (runWrites o w ps)).fs w.lp.fileName = some ps.flatten := by
    unfold closeLog flushLog
    rw [h1]
    simp only [Bool.not_true, Bool.false_eq_true, if_false, h1]
    simp [h3, hb2, hc2, hjoin]
  exact ⟨hfinal, by rw [hfinal]; rfl⟩

/-- A concrete freshly-opened empty sink with no size limit. -/
def freshWorld : World :=
  { lp := { fileOnly := true, overWriteOnStart := false, rotateOnStart := false,
            noErrors := false, fileName := "log", maxSize := 0, oldVersions := 0,
            flushSeconds := -1, rotateFunc := some (fun fs => fs), fileOpen := true,
            size := 0, buf := some [] },
    fs := fun q => if q = "log" then some [] else none,
    stderr := [] }

theorem write_close_roundtrip_witness :
    freshWorld.lp.fileOpen = true ∧ freshWorld.lp.maxSize = 0 ∧
    freshWorld.lp.buf = some [] ∧ freshWorld.fs freshWorld.lp.fileName = some [] ∧
    ((closeLog (runWrites ⟨true, true, true⟩ freshWorld [[1, 2], [3], [4, 5]])).fs
        freshWorld.lp.fileName = some ([[1, 2], [3], [4, 5]] : List (List Byte)).flatten ∧
     ((closeLog (runWrites ⟨true, true, true⟩ freshWorld [[1, 2], [3], [4, 5]])).fs
        freshWorld.lp.fileName).map List.length =
       some ([[1, 2], [3], [4, 5]] : List (List Byte)).flatten.length) :=
  ⟨rfl, rfl, rfl, rfl,
   write_close_roundtrip freshWorld ⟨true, true, true⟩ [[1, 2], [3], [4, 5]]
     rfl rfl rfl rfl rfl⟩

/-! ### Reachable-state invariant: a nil handle or a live buffered writer -/

/-- The handle/buffer invariant: whenever the handle is open, a buffered
writer is allocated. -/
def BufInv (w : World) : Prop := w.lp.fileOpen = true → w.lp.buf.isSome = true

/-- One controller-loop action (any message or timer event that touches the
file state). -/
inductive Step : World → World → Prop where
  | write (w : World) (p : List Byte) (o : Oracles) : Step w (writeLog w p o)
  | rotate (w : World) (o : Oracles) : Step w (rotateLog w o)
  | flush (w : World) : Step w (flushLog w)
  | close (w : World) : Step w (closeLog w)
  | vanish (w : World) (o : Oracles) : Step w (vanishedLog w o)
  | start (w : World) (o : Oracles) : Step w (startLog w o).1
  | openFile (w : World) (t : Bool) (o : Oracles) : Step w (openLogFile w t o).1

/-- Reachability under controller-loop actions. -/
def Reachable : World → World → Prop := Relation.ReflTransGen Step

theorem bufInv_flushLog (w : World) (h : BufInv w) : BufInv (flushLog w) := by
  unfold BufInv at h ⊢
  unfold flushLog
  by_cases ho : w.lp.fileOpen
  · rcases Option.isSome_iff_exists.mp (h ho) with ⟨b, hb⟩
    intro
    simp [ho, hb]
  · simp [ho]

theorem bufInv_closeLog (w : World) : BufInv (closeLog w) := by
  unfold BufInv
  rw [closeLog_fileOpen]
  intro hcon
  cases hcon

theorem bufInv_openLogFile (w : World) (t : Bool) (o : Oracles) :
    BufInv (openLogFile w t o).1 := by
  unfold BufInv openLogFile
  by_cases ho : o.openOk <;> by_cases hb : o.bufOk <;> simp [ho, hb]

theorem bufInv_appendStep (w : World) (p : List Byte) (h : BufInv w) :
    BufInv (appendStep w p) := by
  unfold BufInv at h ⊢
  rw [appendStep_fileOpen]
  intro ho
  rcases Option.isSome_iff_exists.mp (h ho) with ⟨b, hb⟩
  unfold appendStep flushLog
  by_cases hfl : w.lp.flushSeconds ≤ 0 <;> simp [hfl, ho, hb]

theorem bufInv_writeLog (w : World) (p : List Byte) (o : Oracles) (h : BufInv w) :
    BufInv (writeLog w p o) := by
  unfold writeLog
  by_cases habort : (!w.lp.fileOnly && !o.stderrOk) = true
  · simp only [habort, if_true]
    exact h
  · have hm : BufInv (mirrorToStderr w p) := by
      unfold BufInv
      rw [mirror_lp]
      exact h
    simp only [Bool.not_eq_true] at habort
    simp only [habort, Bool.false_eq_true, if_false]
    by_cases hopen : (!(mirrorToStderr w p).lp.fileOpen) = true
    · simp only [hopen, if_true]
      exact hm
    · simp only [hopen, Bool.false_eq_true, if_false]
      by_cases hcond : (mirrorToStderr w p).lp.maxSize > 0 ∧
          (mirrorToStderr w p).lp.size + (p.length : Int) ≥ (mirrorToStderr w p).lp.maxSize
      · rw [if_pos hcond]
        rcases hstep : openLogFile
            ⟨(closeLog (mirrorToStderr w p)).lp,
             applyRotate (closeLog (mirrorToStderr w p)).lp.rotateFunc
               (closeLog (mirrorToStderr w p)).fs,
             (closeLog (mirrorToStderr w p)).stderr⟩ true o with ⟨w4, ok⟩
        have h4 : BufInv w4 := by
          have hh := bufInv_openLogFile
            ⟨(closeLog (mirrorToStderr w p)).lp,
             applyRotate (closeLog (mirrorToStderr w p)).lp.rotateFunc
               (closeLog (mirrorToStderr w p)).fs,
             (closeLog (mirrorToStderr w p)).stderr⟩ true o
          rw [hstep] at hh
          exact hh
        cases ok
        · exact h4
        · exact bufInv_appendStep w4 p h4
      · rw [if_neg hcond]
        exact bufInv_appendStep (mirrorToStderr w p) p hm

theorem bufInv_rotateLog (w : World) (o : Oracles) (h : BufInv w) :
    BufInv (rotateLog w o) := by
  unfold rotateLog
  rcases hf : w.lp.rotateFunc with _ | f
  · exact h
  · exact bufInv_openLogFile _ false o

theorem bufInv_vanishedLog (w : World) (o : Oracles) (h : BufInv w) :
    BufInv (vanishedLog w o) := by
  unfold vanishedLog
  by_cases hs : ((w.fs w.lp.fileName).isSome) = true
  · simp only [hs, if_true]
    exact h
  · simp only [hs, Bool.false_eq_true, if_false]
    exact bufInv_openLogFile _ false o

theorem bufInv_startLog (w : World) (o : Oracles) : BufInv (startLog w o).1 := by
  unfold startLog
  exact bufInv_openLogFile _ _ o

/-- C10: every failed `openLogFile` (it returns `false`) leaves the handle
nil, and consequently the invariant "handle nil, or a buffered writer is
allocated" holds in every state reachable from a state satisfying it. -/
theorem openFail_nil_handle_invariant :
    (∀ (w : World) (t : Bool) (o : Oracles),
      (openLogFile w t o).2 = false → (openLogFile w t o).1.lp.fileOpen = false) ∧
    (∀ w0 w : World, BufInv w0 → Reachable w0 w → BufInv w) := by
  constructor
  · intro w t o hfail
    unfold openLogFile at hfail ⊢
    by_cases ho : o.openOk <;> by_cases hb : o.bufOk <;> simp [ho, hb] at hfail ⊢
  · intro w0 w h0 hreach
    induction hreach with
    | refl => exact h0
    | tail hsteps hstep ih =>
      cases hstep with
      | write p o => exact bufInv_writeLog _ p o ih
      | rotate o => exact bufInv_rotateLog _ o ih
      | flush => exact bufInv_flushLog _ ih
      | close => exact bufInv_closeLog _
      | vanish o => exact bufInv_vanishedLog _ o ih
      | start o => exact bufInv_startLog _ _
      | openFile t o => exact bufInv_openLogFile _ t o

theorem openFail_nil_handle_invariant_witness :
    BufInv closedWorld ∧ Reachable closedWorld (closeLog closedWorld) ∧
    BufInv (closeLog closedWorld) :=
  ⟨(fun h => nomatch h),
   (Relation.ReflTransGen.single (Step.close closedWorld)),
   (openFail_nil_handle_invariant.2 closedWorld (closeLog closedWorld)
     (fun h => nomatch h)
     (Relation.ReflTransGen.single (Step.close closedWorld)))⟩

end Logfile
